import Mathlib

set_option maxHeartbeats 1000000

/-!
Shallow embedding of `md_to_docx.py`: the `MarkdownToDocxConverter` HTML-event
state machine (paragraphs, runs, lists, tables, links, images), its table
assembler `_create_table`, the image fallback of `_handle_image`, and the
regex preprocessor `_preprocess_special_formatting`, together with proofs of
the specification claims about them.

Modelling conventions:
* Python object references (`self.current_paragraph`, `self.current_run`) are
  modelled as indices into the document block list / the paragraph run list.
  In every state reachable by the converter these indices are valid; the
  total helper functions act as no-ops on out-of-range indices, matching the
  fact that a Python object reference can never dangle.
* Python attributes that may not exist yet (`link_url`, `table_data`,
  `current_table_row`, `current_cell_text`) are modelled as `Option`;
  `none` means the attribute was never assigned, so reading it raises
  `AttributeError`, which we model by the handler returning `none`.
* A raised exception (AttributeError / IndexError) is modelled by the
  handler returning `none`; normal return is `some state`.
* `getattr(run, '_bold', False)` on a run that never received tracking
  attributes yields `False`; such runs carry the all-false snapshot `noFmt`.
* Python list indexing with negative wrap-around (`list_counters[i]`) is
  modelled by `pyGet` / `pySet`, which fail (raise) outside `[-len, len)`.
-/

/-- The six inline formatting booleans the converter records on each run it
creates in `handle_data` (`_bold`, `_italic`, `_strikethrough`,
`_superscript`, `_subscript`, `_highlight`) and compares to decide whether
the active run can be reused. Note the `code` flag is *not* among them. -/
structure FmtState where
  bold : Bool
  italic : Bool
  strikethrough : Bool
  superscript : Bool
  subscript : Bool
  highlight : Bool
deriving DecidableEq, Repr

/-- The all-false formatting snapshot; also what `getattr(run, '_x', False)`
yields on a run that never had the tracking attributes set. -/
def noFmt : FmtState := ⟨false, false, false, false, false, false⟩

/-- A docx run: its text, the tracking attributes `_bold` … `_highlight`
recorded by `handle_data` (`noFmt` when absent), and the style actually
applied (`run.bold`, `run.italic`, `run.font.*`). The program only ever
sets `run.bold` / `run.italic` to `True`, so plain `Bool` is faithful. -/
structure Run where
  text : String
  fmt : FmtState
  bold : Bool
  italic : Bool
  fontStrike : Bool
  fontSuper : Bool
  fontSub : Bool
  fontHighlight : Option Nat
  fontName : Option String
  fontSizePt : Option Nat
  fontColor : Option (Nat × Nat × Nat)
  hasPicture : Bool
  hasBreak : Bool
deriving DecidableEq, Repr

/-- A run carrying only text, as produced by `add_run(text)` with no
styling and no tracking attributes. -/
def mkRun (t : String) : Run :=
  ⟨t, noFmt, false, false, false, false, false, none, none, none, none, false, false⟩

/-- A docx paragraph: optional named style, its runs, and whether
`alignment = CENTER` was applied.  `add_paragraph(text, style)` with a
nonempty `text` creates the paragraph with one initial run holding `text`. -/
structure Para where
  style : Option String
  runs : List Run
  centered : Bool
deriving DecidableEq, Repr

/-- A top-level document element: a paragraph or a table.  A table is a
grid of cells, each cell a list of runs (a fresh docx table cell holds an
empty paragraph with no runs; `cell.text = s` gives it a single run). -/
inductive Block where
  | para : Para → Block
  | table : List (List (List Run)) → Block
deriving DecidableEq, Repr

/-- The mutable state of `MarkdownToDocxConverter` plus the document being
built (the sink). Fields mirror `__init__`; the unused `self.table`,
`self.current_row`, `self.current_cell`, `self.in_task_list` attributes are
never read or written after initialization and are omitted. -/
structure ConvState where
  doc : List Block
  current_paragraph : Option Nat
  current_run : Option Nat
  list_level : Int
  ordered_list : Bool
  list_counters : List Nat
  in_code_block : Bool
  in_table : Bool
  bold : Bool
  italic : Bool
  code : Bool
  heading_level : Nat
  in_blockquote : Bool
  strikethrough : Bool
  superscript : Bool
  subscript : Bool
  highlight : Bool
  link_url : Option String
  table_data : Option (List (List String))
  current_table_row : Option (List String)
  current_cell_text : Option (List String)
deriving DecidableEq, Repr

/-- The state right after `MarkdownToDocxConverter.__init__` with an empty
document: ten list counters at zero, all flags cleared, and the
late-bound attributes (`link_url`, table buffers) not yet present. -/
def initState : ConvState :=
  { doc := []
    current_paragraph := none
    current_run := none
    list_level := 0
    ordered_list := false
    list_counters := List.replicate 10 0
    in_code_block := false
    in_table := false
    bold := false
    italic := false
    code := false
    heading_level := 0
    in_blockquote := false
    strikethrough := false
    superscript := false
    subscript := false
    highlight := false
    link_url := none
    table_data := none
    current_table_row := none
    current_cell_text := none }

/-- Lookup in `dict(attrs)`: for duplicate keys the last occurrence wins. -/
def attrsGet (attrs : List (String × String)) (k : String) : Option String :=
  (attrs.reverse.find? (fun p => p.1 = k)).map (fun p => p.2)

/-- Python list read `l[i]` with negative wrap-around; `none` models the
`IndexError` raised outside `[-len l, len l)`. -/
def pyGet (l : List Nat) (i : Int) : Option Nat :=
  if 0 ≤ i ∧ i < (l.length : Int) then l.get? i.toNat
  else if -(l.length : Int) ≤ i ∧ i < 0 then l.get? (i + l.length).toNat
  else none

/-- Python list write `l[i] = v` with negative wrap-around; `none` models
the `IndexError` raised outside `[-len l, len l)`. -/
def pySet (l : List Nat) (i : Int) (v : Nat) : Option (List Nat) :=
  if 0 ≤ i ∧ i < (l.length : Int) then some (l.set i.toNat v)
  else if -(l.length : Int) ≤ i ∧ i < 0 then some (l.set (i + l.length).toNat v)
  else none

/-- Replace the element at an index by applying `f`; no-op out of range. -/
def listModify {α : Type} : List α → Nat → (α → α) → List α
  | [], _, _ => []
  | a :: l, 0, f => f a :: l
  | a :: l, n + 1, f => a :: listModify l n f

/-- Append a paragraph block (`doc.add_paragraph` / `doc.add_heading`),
returning the new state and the index of the created paragraph. -/
def addPara (st : ConvState) (p : Para) : ConvState × Nat :=
  ({ st with doc := st.doc ++ [Block.para p] }, st.doc.length)

/-- The paragraph stored at a document index, when that block is one. -/
def getPara (st : ConvState) (i : Nat) : Option Para :=
  match st.doc.get? i with
  | some (Block.para p) => some p
  | _ => none

/-- Apply a paragraph modification to a block, leaving tables alone. -/
def blockMapPara (f : Para → Para) : Block → Block
  | Block.para p => Block.para (f p)
  | b => b

/-- Mutate the paragraph object at a document index in place. -/
def modifyParaAt (st : ConvState) (i : Nat) (f : Para → Para) : ConvState :=
  { st with doc := listModify st.doc i (blockMapPara f) }

/-- The `paragraph.text` property: concatenation of the run texts. -/
def paraFullText (p : Para) : String :=
  p.runs.foldl (fun acc r => acc ++ r.text) ""

/-- `paragraph.text` of the paragraph at a document index (`""` when the
index does not name a paragraph, which never happens in reachable states). -/
def paraTextAt (st : ConvState) (i : Nat) : String :=
  ((getPara st i).map paraFullText).getD ""

/-- Python `str.strip()`: remove leading and trailing whitespace (modelled
on the ASCII whitespace of `Char.isWhitespace`, which covers every
character these inputs contain). -/
def pyStrip (s : String) : String :=
  String.mk (((s.data.dropWhile Char.isWhitespace).reverse.dropWhile Char.isWhitespace).reverse)

/-- The current formatting snapshot, as read from the six converter flags
compared in `handle_data` (the `code` flag is not part of it). -/
def curFmt (st : ConvState) : FmtState :=
  ⟨st.bold, st.italic, st.strikethrough, st.superscript, st.subscript, st.highlight⟩

/-- The run created by `handle_data` when the formatting changed: tracking
attributes recorded from the current flags, then the style block applied
(bold/italic, strike/super/sub via the font, yellow highlight, and the
fixed-width face with reduced size for code, tinted red only inline). -/
def styledRun (st : ConvState) (data : String) : Run :=
  { text := data
    fmt := curFmt st
    bold := st.bold
    italic := st.italic
    fontStrike := st.strikethrough
    fontSuper := st.superscript
    fontSub := st.subscript
    fontHighlight := if st.highlight then some 7 else none
    fontName := if st.code || st.in_code_block then some "Courier New" else none
    fontSizePt := if st.code || st.in_code_block then some 10 else none
    fontColor :=
      if (st.code || st.in_code_block) && !st.in_code_block then some (200, 0, 0) else none
    hasPicture := false
    hasBreak := false }

/-- The run appended at anchor close: `' (url)'` in blue at 9pt. -/
def linkRun (u : String) : Run :=
  { mkRun (" (" ++ u ++ ")") with fontColor := some (0, 0, 255), fontSizePt := some 9 }

/-- The italic bracketed fallback run added when an image fails to load:
the `alt` attribute value if the attribute is present, else
`[Image: <src>]`, wrapped in one more pair of brackets by `add_run`. -/
def fallbackRunOf (attrs : List (String × String)) (src : String) : Run :=
  let fb :=
    match attrsGet attrs "alt" with
    | some a => a
    | none => "[Image: " ++ src ++ "]"
  { mkRun ("[" ++ fb ++ "]") with italic := true }

/-- `_handle_image`: pick or create the (centered) image paragraph, then
either insert the picture run (and an italic 9pt centered caption when alt
text is nonempty) and clear the insertion point, or — when the load fails,
which in the source can only happen after the image paragraph was already
created and centered — append the italic bracketed fallback run to the
current paragraph, creating one if none is active.  `loadFails` is the
outcome of the external fetch/decode, an input to the model. -/
def handle_image (st : ConvState) (attrs : List (String × String)) (loadFails : Bool) :
    ConvState :=
  let src := (attrsGet attrs "src").getD ""
  if src = "" then st
  else
    let pick : ConvState × Nat :=
      match st.current_paragraph with
      | some pi =>
        if paraTextAt st pi ≠ "" then addPara st ⟨none, [], false⟩
        else (st, pi)
      | none => addPara st ⟨none, [], false⟩
    let st1 := modifyParaAt pick.1 pick.2 (fun p => { p with centered := true })
    if loadFails then
      let tgt : ConvState × Nat :=
        match st1.current_paragraph with
        | some pi => (st1, pi)
        | none =>
          let q := addPara st1 ⟨none, [], false⟩
          ({ q.1 with current_paragraph := some q.2 }, q.2)
      modifyParaAt tgt.1 tgt.2
        (fun p => { p with runs := p.runs ++ [fallbackRunOf attrs src] })
    else
      let st2 := modifyParaAt st1 pick.2
        (fun p => { p with runs := p.runs ++ [{ mkRun "" with hasPicture := true }] })
      let st3 :=
        match attrsGet attrs "alt" with
        | some a =>
          if a ≠ "" then
            (addPara st2 ⟨none, [{ mkRun a with italic := true, fontSizePt := some 9 }], true⟩).1
          else st2
        | none => st2
      { st3 with current_paragraph := none, current_run := none }

/-- `_add_horizontal_rule`: a fresh paragraph holding one light-gray 1pt
run of eighty underscores; clears the insertion point. -/
def add_horizontal_rule (st : ConvState) : ConvState :=
  let r : Run :=
    { mkRun (String.mk (List.replicate 80 '_')) with
        fontColor := some (192, 192, 192), fontSizePt := some 1 }
  let q := addPara st ⟨none, [r], false⟩
  { q.1 with current_paragraph := none, current_run := none }

/-- `_add_page_break`: a page-break run in the active paragraph, or in a
fresh paragraph when none is active; clears the insertion point. -/
def add_page_break (st : ConvState) : ConvState :=
  let r : Run := { mkRun "" with hasBreak := true }
  let st' :=
    match st.current_paragraph with
    | some pi => modifyParaAt st pi (fun p => { p with runs := p.runs ++ [r] })
    | none => (addPara st ⟨none, [r], false⟩).1
  { st' with current_paragraph := none, current_run := none }

/-- Heading level from the tag name (`int(tag[1])` for `h1` … `h6`). -/
def headingLevelOf (tag : String) : Option Nat :=
  if tag = "h1" then some 1
  else if tag = "h2" then some 2
  else if tag = "h3" then some 3
  else if tag = "h4" then some 4
  else if tag = "h5" then some 5
  else if tag = "h6" then some 6
  else none

/-- The heading branch of `handle_starttag`: `doc.add_heading('', level)`
opens a heading-styled paragraph and records the level. -/
def startHeading (st : ConvState) (lvl : Nat) : ConvState :=
  let q := addPara st ⟨some ("Heading " ++ toString lvl), [], false⟩
  { q.1 with heading_level := lvl, current_paragraph := some q.2, current_run := none }

/-- `handle_starttag`, one branch per tag of the source `if/elif` chain
(the membership test `tag in ['h1', …, 'h6']` plus `int(tag[1])` becomes
one branch per heading literal); tags matching no branch fall through with
the state unchanged.  The blockquote style fallback of the source
(`'Intense Quote'`, manual indentation when the sink lacks the style)
cannot raise; the default python-docx document provides the style, so we
record it directly. -/
def handle_starttag (st : ConvState) (tag : String) (attrs : List (String × String))
    (imgFails : Bool) : Option ConvState :=
  match tag with
  | "h1" => some (startHeading st 1)
  | "h2" => some (startHeading st 2)
  | "h3" => some (startHeading st 3)
  | "h4" => some (startHeading st 4)
  | "h5" => some (startHeading st 5)
  | "h6" => some (startHeading st 6)
  | "p" =>
    let q := addPara st ⟨none, [], false⟩
    some { q.1 with current_paragraph := some q.2, current_run := none }
  | "strong" | "b" => some { st with bold := true }
  | "em" | "i" => some { st with italic := true }
  | "code" => some { st with code := true }
  | "pre" =>
    let q := addPara st ⟨some "No Spacing", [], false⟩
    some { q.1 with in_code_block := true, current_paragraph := some q.2, current_run := none }
  | "ul" => some { st with ordered_list := false, list_level := st.list_level + 1 }
  | "ol" =>
    let st' := { st with ordered_list := true, list_level := st.list_level + 1 }
    (match pySet st'.list_counters (st'.list_level - 1) 0 with
     | some cs => some { st' with list_counters := cs }
     | none => none)
  | "li" =>
    if st.ordered_list then
      match pyGet st.list_counters (st.list_level - 1) with
      | none => none
      | some c =>
        match pySet st.list_counters (st.list_level - 1) (c + 1) with
        | none => none
        | some cs =>
          let q := addPara { st with list_counters := cs }
            ⟨some "List Number", [mkRun (toString (c + 1) ++ ". ")], false⟩
          some { q.1 with current_paragraph := some q.2, current_run := none }
    else
      let q := addPara st ⟨some "List Bullet", [], false⟩
      some { q.1 with current_paragraph := some q.2, current_run := none }
  | "a" => some { st with link_url := some ((attrsGet attrs "href").getD "") }
  | "img" => some (handle_image st attrs imgFails)
  | "table" =>
    some { st with in_table := true, table_data := some [], current_table_row := some [] }
  | "tr" => some { st with current_table_row := some [] }
  | "th" | "td" => some { st with current_cell_text := some [] }
  | "br" =>
    (match st.current_paragraph with
     | some pi =>
       some (modifyParaAt st pi (fun p => { p with runs := p.runs ++ [mkRun "\n"] }))
     | none => some st)
  | "blockquote" =>
    let q := addPara st ⟨some "Intense Quote", [], false⟩
    some { q.1 with in_blockquote := true, current_paragraph := some q.2, current_run := none }
  | "hr" => some (add_horizontal_rule st)
  | "del" | "s" => some { st with strikethrough := true }
  | "sup" => some { st with superscript := true }
  | "sub" => some { st with subscript := true }
  | "mark" => some { st with highlight := true }
  | "div" =>
    if attrsGet attrs "class" = some "pagebreak" then some (add_page_break st)
    else some st
  | _ => some st

/-- Longest row width, `max(len(row) for row in td)`; the fold over `0`
agrees with the Python `max` on the nonempty lists it is applied to. -/
def maxCols (td : List (List String)) : Nat :=
  (td.map List.length).foldl max 0

/-- One rendered table row: `cols` cells, the `j`-th holding a single run
with the stripped source text (bold in the header row) when the source row
has a `j`-th cell, and no runs at all otherwise (a fresh docx cell). -/
def buildRow (header : Bool) (cols : Nat) (row : List String) : List (List Run) :=
  (List.range cols).map (fun j =>
    match row.get? j with
    | some s => [{ mkRun (pyStrip s) with bold := header }]
    | none => [])

/-- The grid written by the fill loop of `_create_table`: `enumerate` over
the buffered rows, bolding exactly the row at index 0. -/
def buildGrid : List (List String) → Nat → List (List (List Run))
  | [], _ => []
  | row :: rest, cols => buildRow true cols row :: rest.map (buildRow false cols)

/-- `_create_table`: emit nothing for an empty buffer or zero columns;
otherwise append the rows × maxCols grid and reset the buffer. -/
def create_table (st : ConvState) (td : List (List String)) : ConvState :=
  if td = [] then st
  else
    let rows := td.length
    let cols := maxCols td
    if rows = 0 ∨ cols = 0 then st
    else
      { st with doc := st.doc ++ [Block.table (buildGrid td cols)], table_data := some [] }

/-- `handle_endtag`, one branch per tag of the source `if/elif` chain.
Reading a never-assigned buffer attribute (`current_table_row`,
`current_cell_text`, `table_data`) raises `AttributeError`, modelled by
`none`; `link_url` is guarded by `hasattr` in the source. -/
def handle_endtag (st : ConvState) (tag : String) : Option ConvState :=
  match tag with
  | "h1" | "h2" | "h3" | "h4" | "h5" | "h6" =>
    some { st with heading_level := 0, current_paragraph := none, current_run := none }
  | "p" => some { st with current_paragraph := none, current_run := none }
  | "strong" | "b" => some { st with bold := false, current_run := none }
  | "em" | "i" => some { st with italic := false, current_run := none }
  | "code" => some { st with code := false, current_run := none }
  | "pre" =>
    some { st with in_code_block := false, current_paragraph := none, current_run := none }
  | "ul" => some { st with list_level := st.list_level - 1 }
  | "ol" =>
    let st' := { st with list_level := st.list_level - 1 }
    (match pySet st'.list_counters st'.list_level 0 with
     | some cs => some { st' with list_counters := cs }
     | none => none)
  | "li" => some { st with current_paragraph := none, current_run := none }
  | "a" =>
    let st' :=
      match st.link_url with
      | some u =>
        if u ≠ "" then
          let st2 :=
            match st.current_paragraph, st.current_run with
            | some pi, some _ =>
              modifyParaAt st pi (fun p => { p with runs := p.runs ++ [linkRun u] })
            | _, _ => st
          { st2 with link_url := some "" }
        else st
      | none => st
    some { st' with current_run := none }
  | "th" | "td" =>
    (match st.current_table_row, st.current_cell_text with
     | some row, some cell =>
       some { st with current_table_row := some (row ++ [String.join cell]) }
     | _, _ => none)
  | "tr" =>
    (match st.current_table_row with
     | none => none
     | some row =>
       if row ≠ [] then
         match st.table_data with
         | none => none
         | some td =>
           some { st with table_data := some (td ++ [row]), current_table_row := some [] }
       else some { st with current_table_row := some [] })
  | "table" =>
    (match st.table_data with
     | none => none
     | some td => some { create_table st td with in_table := false })
  | "blockquote" =>
    some { st with in_blockquote := false, current_paragraph := none, current_run := none }
  | "del" | "s" => some { st with strikethrough := false, current_run := none }
  | "sup" => some { st with superscript := false, current_run := none }
  | "sub" => some { st with subscript := false, current_run := none }
  | "mark" => some { st with highlight := false, current_run := none }
  | _ => some st

/-- `handle_data`: drop pure-whitespace text outside code blocks; inside a
table cell only accumulate; otherwise ensure an active paragraph, then
start a fresh fully-styled run when no run is active or the six tracked
flags differ from those recorded on the active run, and append the text
verbatim to the active run otherwise. -/
def handle_data (st : ConvState) (data : String) : ConvState :=
  if pyStrip data = "" && !st.in_code_block then st
  else if st.in_table && st.current_cell_text.isSome then
    { st with current_cell_text := st.current_cell_text.map (fun l => l ++ [data]) }
  else
    let stp :=
      match st.current_paragraph with
      | some _ => st
      | none =>
        let q := addPara st ⟨none, [], false⟩
        { q.1 with current_paragraph := some q.2 }
    let pi := stp.current_paragraph.getD 0
    let runsNow := ((getPara stp pi).map Para.runs).getD []
    match stp.current_run with
    | some ri =>
      if curFmt stp = ((runsNow.get? ri).map Run.fmt).getD noFmt then
        modifyParaAt stp pi (fun p =>
          { p with runs := listModify p.runs ri (fun r => { r with text := r.text ++ data }) })
      else
        { modifyParaAt stp pi (fun p => { p with runs := p.runs ++ [styledRun stp data] }) with
            current_run := some runsNow.length }
    | none =>
      { modifyParaAt stp pi (fun p => { p with runs := p.runs ++ [styledRun stp data] }) with
          current_run := some runsNow.length }

/-- One parser event.  `imgFails` carries the outcome of the external
image fetch/decode for the event (only consulted for `img` tags). -/
inductive Event where
  | start (tag : String) (attrs : List (String × String)) (imgFails : Bool)
  | endT (tag : String)
  | text (data : String)
deriving DecidableEq, Repr

/-- Dispatch one event to its handler. -/
def step (st : ConvState) : Event → Option ConvState
  | Event.start tag attrs imgFails => handle_starttag st tag attrs imgFails
  | Event.endT tag => handle_endtag st tag
  | Event.text d => some (handle_data st d)

/-- Feed a whole event sequence; `none` as soon as any handler raises. -/
def processAll (st : ConvState) (evs : List Event) : Option ConvState :=
  evs.foldlM step st

/-- Left-to-right non-overlapping rewriting for the pattern
`~~([^~]+)~~` → `<del>\1</del>` of `re.sub`: at each position try to match
two tildes, a nonempty tilde-free group and two closing tildes; on success
continue after the match, on failure advance one character.  The fuel
argument bounds recursion; every call consumes at least one input
character, so `length + 1` fuel reproduces `re.sub` exactly. -/
def reDelGo : Nat → List Char → List Char
  | 0, cs => cs
  | _, [] => []
  | fuel + 1, c :: cs =>
    match c, cs with
    | '~', '~' :: rest =>
      (match rest.takeWhile (fun x => x ≠ '~'), rest.dropWhile (fun x => x ≠ '~') with
       | g :: gs, '~' :: '~' :: rest3 =>
         "<del>".data ++ (g :: gs) ++ "</del>".data ++ reDelGo fuel rest3
       | _, _ => '~' :: reDelGo fuel ('~' :: rest))
    | _, _ => c :: reDelGo fuel cs

/-- Strikethrough shorthand substitution (first pattern of
`_preprocess_special_formatting`). -/
def reDel (s : String) : String := String.mk (reDelGo (s.length + 1) s.data)

/-- Rewriting for `==([^=]+)==` → `<mark>\1</mark>`, same scheme. -/
def reMarkGo : Nat → List Char → List Char
  | 0, cs => cs
  | _, [] => []
  | fuel + 1, c :: cs =>
    match c, cs with
    | '=', '=' :: rest =>
      (match rest.takeWhile (fun x => x ≠ '='), rest.dropWhile (fun x => x ≠ '=') with
       | g :: gs, '=' :: '=' :: rest3 =>
         "<mark>".data ++ (g :: gs) ++ "</mark>".data ++ reMarkGo fuel rest3
       | _, _ => '=' :: reMarkGo fuel ('=' :: rest))
    | _, _ => c :: reMarkGo fuel cs

/-- Highlight shorthand substitution (second pattern). -/
def reMark (s : String) : String := String.mk (reMarkGo (s.length + 1) s.data)

/-- Rewriting for the caret pattern of the third substitution: a caret, a
nonempty caret-free group, a closing caret. -/
def reSupGo : Nat → List Char → List Char
  | 0, cs => cs
  | _, [] => []
  | fuel + 1, c :: cs =>
    match c with
    | '^' =>
      (match cs.takeWhile (fun x => x ≠ '^'), cs.dropWhile (fun x => x ≠ '^') with
       | g :: gs, '^' :: rest3 =>
         "<sup>".data ++ (g :: gs) ++ "</sup>".data ++ reSupGo fuel rest3
       | _, _ => '^' :: reSupGo fuel cs)
    | _ => c :: reSupGo fuel cs

/-- Superscript shorthand substitution (third pattern). -/
def reSup (s : String) : String := String.mk (reSupGo (s.length + 1) s.data)

/-- Rewriting for the single-tilde pattern of the fourth substitution,
with the negative lookbehind and lookahead of the source regex: a tilde
not preceded by a tilde (`prev` is the character before the scan
position), a nonempty tilde-free group, a closing tilde not followed by a
tilde. -/
def reSubGo : Nat → Option Char → List Char → List Char
  | 0, _, cs => cs
  | _, _, [] => []
  | fuel + 1, prev, c :: cs =>
    match c with
    | '~' =>
      if prev = some '~' then '~' :: reSubGo fuel (some '~') cs
      else
        (match cs.takeWhile (fun x => x ≠ '~'), cs.dropWhile (fun x => x ≠ '~') with
         | g :: gs, '~' :: rest3 =>
           if rest3.head? = some '~' then '~' :: reSubGo fuel (some '~') cs
           else "<sub>".data ++ (g :: gs) ++ "</sub>".data ++ reSubGo fuel (some '~') rest3
         | _, _ => '~' :: reSubGo fuel (some '~') cs)
    | _ => c :: reSubGo fuel (some c) cs

/-- Subscript shorthand substitution (fourth pattern). -/
def reSubS (s : String) : String := String.mk (reSubGo (s.length + 1) none s.data)

/-- `_preprocess_special_formatting`: strikethrough, then highlight, then
superscript, then subscript — in that order. -/
def preprocess_special_formatting (s : String) : String :=
  reSubS (reSup (reMark (reDel s)))

/-! ### Helper lemmas about the list and document primitives -/

theorem listModify_length {α : Type} (l : List α) (i : Nat) (f : α → α) :
    (listModify l i f).length = l.length := by
  induction l generalizing i with
  | nil => rfl
  | cons a l ih =>
    cases i with
    | zero => rfl
    | succ n => simpa [listModify] using ih n

theorem listModify_get_self {α : Type} (l : List α) (i : Nat) (f : α → α) :
    (listModify l i f).get? i = (l.get? i).map f := by
  induction l generalizing i with
  | nil => rfl
  | cons a l ih =>
    cases i with
    | zero => rfl
    | succ n => simpa [listModify] using ih n

theorem listModify_get_ne {α : Type} (l : List α) (i j : Nat) (f : α → α) (h : j ≠ i) :
    (listModify l i f).get? j = l.get? j := by
  induction l generalizing i j with
  | nil => rfl
  | cons a l ih =>
    cases i with
    | zero =>
      cases j with
      | zero => exact absurd rfl h
      | succ m => rfl
    | succ n =>
      cases j with
      | zero => rfl
      | succ m => simpa [listModify] using ih n m (fun hh => h (by omega))

theorem listModify_comp {α : Type} (l : List α) (i : Nat) (f g : α → α) :
    listModify (listModify l i f) i g = listModify l i (fun a => g (f a)) := by
  induction l generalizing i with
  | nil => rfl
  | cons a l ih =>
    cases i with
    | zero => rfl
    | succ n => simpa [listModify] using ih n

theorem getPara_modify_self (st : ConvState) (i : Nat) (f : Para → Para) :
    getPara (modifyParaAt st i f) i = (getPara st i).map f := by
  unfold getPara modifyParaAt
  simp only [listModify_get_self]
  cases h : st.doc.get? i with
  | none => rfl
  | some b => cases b <;> rfl

theorem getPara_modify_ne (st : ConvState) (i j : Nat) (f : Para → Para) (h : j ≠ i) :
    getPara (modifyParaAt st i f) j = getPara st j := by
  unfold getPara modifyParaAt
  rw [listModify_get_ne _ _ _ _ h]

theorem getPara_lt (st : ConvState) (i : Nat) (p : Para) (h : getPara st i = some p) :
    i < st.doc.length := by
  unfold getPara at h
  cases hg : st.doc.get? i with
  | none => rw [hg] at h; cases h
  | some b => exact (List.get?_eq_some.mp hg).1

theorem getPara_append (st : ConvState) (b : Block) (i : Nat) (p : Para)
    (h : getPara st i = some p) :
    getPara { st with doc := st.doc ++ [b] } i = some p := by
  have hlt := getPara_lt st i p h
  unfold getPara at *
  rw [List.get?_append hlt]
  exact h

theorem getPara_addPara (st : ConvState) (p : Para) :
    getPara { st with doc := st.doc ++ [Block.para p] } st.doc.length = some p := by
  unfold getPara
  rw [List.get?_concat_length]

theorem pyGet_isSome (l : List Nat) (i : Int) (h1 : -(l.length : Int) ≤ i)
    (h2 : i < (l.length : Int)) : ∃ c, pyGet l i = some c := by
  unfold pyGet
  by_cases h0 : 0 ≤ i
  · have hlt : i.toNat < l.length := by omega
    rw [if_pos ⟨h0, h2⟩]
    exact ⟨_, List.get?_eq_get hlt⟩
  · have hc : ¬(0 ≤ i ∧ i < (l.length : Int)) := fun hc => h0 hc.1
    rw [if_neg hc, if_pos ⟨h1, by omega⟩]
    have hlt : (i + l.length).toNat < l.length := by omega
    exact ⟨_, List.get?_eq_get hlt⟩

theorem pySet_isSome (l : List Nat) (i : Int) (v : Nat) (h1 : -(l.length : Int) ≤ i)
    (h2 : i < (l.length : Int)) : ∃ l', pySet l i v = some l' := by
  unfold pySet
  by_cases h0 : 0 ≤ i
  · rw [if_pos ⟨h0, h2⟩]; exact ⟨_, rfl⟩
  · rw [if_neg (fun hc => h0 hc.1), if_pos ⟨h1, by omega⟩]; exact ⟨_, rfl⟩

theorem pyGet_zero (c : Nat) (cs : List Nat) : pyGet (c :: cs) 0 = some c := by
  have : (0 : Int) < ((c :: cs).length : Int) := by
    simp
  simp [pyGet]

theorem pySet_zero (c v : Nat) (cs : List Nat) : pySet (c :: cs) 0 v = some (v :: cs) := by
  simp [pySet]

theorem get?_concat_cases {α : Type} (l : List α) (x y : α) (i : Nat)
    (h : (l ++ [x]).get? i = some y) : l.get? i = some y ∨ (i = l.length ∧ y = x) := by
  by_cases hlt : i < l.length
  · left
    rw [List.get?_append hlt] at h
    exact h
  · right
    have hge : l.length ≤ i := Nat.le_of_not_lt hlt
    rw [List.get?_append_right hge] at h
    have : i - l.length = 0 := by
      cases hd : i - l.length with
      | zero => rfl
      | succ n => rw [hd] at h; cases h
    have hy : y = x := by
      rw [this] at h
      simp only [List.get?_cons_zero, Option.some.injEq] at h
      exact h.symm
    exact ⟨by omega, hy⟩

theorem le_foldl_max (l : List Nat) (b : Nat) : b ≤ l.foldl max b := by
  induction l generalizing b with
  | nil => exact Nat.le_refl b
  | cons x l ih => exact Nat.le_trans (Nat.le_max_left b x) (ih (max b x))

theorem mem_le_foldl_max (l : List Nat) (b a : Nat) (h : a ∈ l) : a ≤ l.foldl max b := by
  induction l generalizing b with
  | nil => cases h
  | cons x l ih =>
    cases List.mem_cons.mp h with
    | inl hx =>
      subst hx
      exact Nat.le_trans (Nat.le_max_right b a) (le_foldl_max l (max b a))
    | inr hm => exact ih (max b x) hm

theorem foldl_max_cases (l : List Nat) (b : Nat) :
    l.foldl max b = b ∨ ∃ a ∈ l, l.foldl max b = a := by
  induction l generalizing b with
  | nil => exact Or.inl rfl
  | cons x l ih =>
    cases ih (max b x) with
    | inl heq =>
      cases max_choice b x with
      | inl hb => left; simpa [List.foldl, hb] using heq
      | inr hx => right; exact ⟨x, List.mem_cons_self x l, by simpa [List.foldl, hx] using heq⟩
    | inr hex =>
      obtain ⟨a, ha, heq⟩ := hex
      right
      exact ⟨a, List.mem_cons_of_mem x ha, heq⟩

/-! ### Claim C6: preprocessing order of strikethrough and subscript -/

/-- C6: the preprocessor applies the strikethrough substitution before the
subscript substitution, so the line `~~struck~~ H~2~O` is rewritten with
`struck` wrapped in the strikethrough tag and `2` wrapped in the subscript
tag, neither substitution consuming the other's delimiters. -/
theorem claim6_theorem :
    preprocess_special_formatting "~~struck~~ H~2~O" = "<del>struck</del> H<sub>2</sub>O" := by
  decide

/-! ### Claim C10: unbounded depth decrement and negative-index wrap -/

/-- C10: every list end tag decrements the list depth with no lower bound
(unconditionally for `ul`; for `ol` together with the counter reset,
within the index range of the ten-slot array), so surplus end tags drive
the depth negative; ordered-list and list-item events then index the
counter array at negative positions that wrap to the deepest slots: from
the initial state, two `ul` end tags followed by `ol` and `li` start tags
leave depth −1 and silently write the counter in slot 8 — a different
depth's counter — emitting a `1. ` item and raising nothing. -/
theorem claim10_theorem :
    (∀ st : ConvState,
        handle_endtag st "ul" = some { st with list_level := st.list_level - 1 })
    ∧ (∀ st : ConvState, -9 ≤ st.list_level → st.list_level ≤ 10 →
        st.list_counters.length = 10 →
        ∃ cs, handle_endtag st "ol" =
          some { st with list_level := st.list_level - 1, list_counters := cs })
    ∧ processAll initState
        [Event.endT "ul", Event.endT "ul", Event.start "ol" [] false,
         Event.start "li" [] false] =
      some { initState with
        doc := [Block.para ⟨some "List Number", [mkRun "1. "], false⟩]
        current_paragraph := some 0
        list_level := -1
        ordered_list := true
        list_counters := [0, 0, 0, 0, 0, 0, 0, 0, 1, 0] } := by
  refine ⟨fun st => rfl, fun st h1 h2 h3 => ?_, by rfl⟩
  obtain ⟨cs, hcs⟩ := pySet_isSome st.list_counters (st.list_level - 1) 0
    (by rw [h3]; omega) (by rw [h3]; omega)
  refine ⟨cs, ?_⟩
  show (match pySet st.list_counters (st.list_level - 1) 0 with
    | some cs => some { st with list_level := st.list_level - 1, list_counters := cs }
    | none => none) = _
  rw [hcs]

/-- C10 witness: both decrement facts instantiated at the initial state. -/
theorem claim10_witness :
    handle_endtag initState "ul" =
      some { initState with list_level := initState.list_level - 1 } ∧
    ∃ cs, handle_endtag initState "ol" =
      some { initState with list_level := initState.list_level - 1, list_counters := cs } :=
  ⟨claim10_theorem.1 initState,
   claim10_theorem.2.1 initState (by decide) (by decide) (by decide)⟩

/-! ### Claim C1: run reuse decision -/

/-- C1 counterexample: after `p`, text `a`, `code`, text `b` the `code`
component of the formatting state differs from the state in force when the
active run was created, yet `handle_data` reuses that run — the paragraph
ends with the single completely unstyled run `ab` (in particular no
fixed-width font), whereas the claim, whose FormattingState includes
`code`, requires a fresh styled run for `b`. -/
theorem claim1_counterexample :
    processAll initState
      [Event.start "p" [] false, Event.text "a", Event.start "code" [] false,
       Event.text "b"] =
    some { initState with
      doc := [Block.para ⟨none, [mkRun "ab"], false⟩]
      current_paragraph := some 0
      current_run := some 0
      code := true } := by rfl

/-! ### Claim C2: ordered-list numbering -/

/-- C2 counterexample: in `ol (li one) (ul (li x)) (li two) /ol` the item
`two` — the second item of the ordered list — is emitted as a bulleted
paragraph with no `2. ` run at all, because the single `ordered_list`
flag was cleared by the inner `ul` start and is never restored when the
sublist closes; the claim requires the prefix `2. ` regardless of
unordered sublists opened and closed between the items. -/
theorem claim2_counterexample :
    processAll initState
      [Event.start "ol" [] false,
       Event.start "li" [] false, Event.text "one", Event.endT "li",
       Event.start "ul" [] false, Event.start "li" [] false, Event.text "x",
       Event.endT "li", Event.endT "ul",
       Event.start "li" [] false, Event.text "two", Event.endT "li",
       Event.endT "ol"] =
    some { initState with
      doc :=
        [Block.para ⟨some "List Number", [mkRun "1. ", mkRun "one"], false⟩,
         Block.para ⟨some "List Bullet", [mkRun "x"], false⟩,
         Block.para ⟨some "List Bullet", [mkRun "two"], false⟩] } := by rfl

/-! ### Claim C3: handler totality -/

/-- C3 counterexample: a `td` end tag with no preceding table markup reads
the never-assigned cell buffer and raises `AttributeError`, and eleven
nested `ol` start tags overflow the ten-slot counter array and raise
`IndexError` — both contradict the claim that no handler ever raises on
malformed or deeply nested input. -/
theorem claim3_counterexample :
    processAll initState [Event.endT "td"] = none ∧
    processAll initState (List.replicate 11 (Event.start "ol" [] false)) = none :=
  ⟨rfl, rfl⟩

/-! ### Claim C8: anchor annotation -/

/-- C8 counterexample: with `p`, text `x`, then an anchor opened with
`href = u` and immediately closed, no run is produced inside the anchor,
yet the close handler appends the ` (u)` annotation run because the active
run left over from before the anchor still exists — refuting the claimed
`only if a run was produced inside the anchor` direction. -/
theorem claim8_counterexample :
    processAll initState
      [Event.start "p" [] false, Event.text "x", Event.start "a" [("href", "u")] false,
       Event.endT "a"] =
    some { initState with
      doc := [Block.para ⟨none, [mkRun "x", linkRun "u"], false⟩]
      current_paragraph := some 0
      link_url := some "" } := by rfl

/-! ### Step-description lemmas for individual handlers -/

theorem listModify_concat {α : Type} (l : List α) (x : α) (f : α → α) :
    listModify (l ++ [x]) l.length f = l ++ [f x] := by
  induction l with
  | nil => rfl
  | cons a l ih => simpa [listModify] using ih

/-- `handle_data` on nonempty text outside tables, with an active paragraph
and no active run: a fresh styled run is appended and becomes active. -/
theorem data_new_run (st : ConvState) (data : String) (pi : Nat) (P : Para)
    (hdata : pyStrip data ≠ "") (htab : st.in_table = false)
    (hpi : st.current_paragraph = some pi) (hP : getPara st pi = some P)
    (hr : st.current_run = none) :
    handle_data st data =
      { modifyParaAt st pi (fun p => { p with runs := p.runs ++ [styledRun st data] }) with
          current_run := some P.runs.length } := by
  simp [handle_data, hdata, htab, hpi, hP, hr]

/-- `handle_data` when the active run's recorded flags equal the current
ones: the text is appended to that run, nothing else changes. -/
theorem data_extend_run (st : ConvState) (data : String) (pi ri : Nat) (P : Para) (r : Run)
    (hdata : pyStrip data ≠ "") (htab : st.in_table = false)
    (hpi : st.current_paragraph = some pi) (hP : getPara st pi = some P)
    (hri : st.current_run = some ri) (hrr : P.runs.get? ri = some r)
    (heq : curFmt st = r.fmt) :
    handle_data st data =
      modifyParaAt st pi (fun p =>
        { p with runs := listModify p.runs ri (fun r0 => { r0 with text := r0.text ++ data }) }) := by
  have hrr' : P.runs[ri]? = some r := by rw [← List.get?_eq_getElem?]; exact hrr
  simp [handle_data, hdata, htab, hpi, hP, hri, hrr', heq]

/-- `handle_data` when the active run's recorded flags differ from the
current ones: a fresh styled run is appended and becomes active. -/
theorem data_changed_run (st : ConvState) (data : String) (pi ri : Nat) (P : Para) (r : Run)
    (hdata : pyStrip data ≠ "") (htab : st.in_table = false)
    (hpi : st.current_paragraph = some pi) (hP : getPara st pi = some P)
    (hri : st.current_run = some ri) (hrr : P.runs.get? ri = some r)
    (hne : curFmt st ≠ r.fmt) :
    handle_data st data =
      { modifyParaAt st pi (fun p => { p with runs := p.runs ++ [styledRun st data] }) with
          current_run := some P.runs.length } := by
  have hrr' : P.runs[ri]? = some r := by rw [← List.get?_eq_getElem?]; exact hrr
  simp [handle_data, hdata, htab, hpi, hP, hri, hrr', hne]

/-- `handle_data` with no active paragraph (hence no active run): a fresh
paragraph is created and receives the styled run. -/
theorem data_fresh_para (st : ConvState) (data : String)
    (hdata : pyStrip data ≠ "") (htab : st.in_table = false)
    (hpi : st.current_paragraph = none) (hr : st.current_run = none) :
    handle_data st data =
      { st with
          doc := st.doc ++ [Block.para ⟨none, [styledRun st data], false⟩],
          current_paragraph := some st.doc.length,
          current_run := some 0 } := by
  simp [handle_data, hdata, htab, hpi, hr, addPara, getPara, List.get?_concat_length,
    modifyParaAt, listModify_concat, blockMapPara, styledRun, curFmt]

/-- Whitespace-only text outside a code block is dropped. -/
theorem data_whitespace (st : ConvState) (data : String)
    (hdata : pyStrip data = "") (hcode : st.in_code_block = false) :
    handle_data st data = st := by
  simp [handle_data, hdata, hcode]

theorem start_p_step (st : ConvState) (a : List (String × String)) (b : Bool) :
    handle_starttag st "p" a b =
      some { st with doc := st.doc ++ [Block.para ⟨none, [], false⟩],
                     current_paragraph := some st.doc.length, current_run := none } := rfl

theorem end_p_step (st : ConvState) :
    handle_endtag st "p" =
      some { st with current_paragraph := none, current_run := none } := rfl

theorem end_li_step (st : ConvState) :
    handle_endtag st "li" =
      some { st with current_paragraph := none, current_run := none } := rfl

theorem start_ol_level0 (st : ConvState) (c0 : Nat) (cs : List Nat)
    (hlvl : st.list_level = 0) (hcnt : st.list_counters = c0 :: cs)
    (a : List (String × String)) (b : Bool) :
    handle_starttag st "ol" a b =
      some { st with ordered_list := true, list_level := 1, list_counters := 0 :: cs } := by
  simp [handle_starttag, headingLevelOf, hlvl, hcnt, pySet_zero]

theorem end_ol_level1 (st : ConvState) (c0 : Nat) (cs : List Nat)
    (hlvl : st.list_level = 1) (hcnt : st.list_counters = c0 :: cs) :
    handle_endtag st "ol" =
      some { st with list_level := 0, list_counters := 0 :: cs } := by
  simp [handle_endtag, headingLevelOf, hlvl, hcnt, pySet_zero]

theorem start_li_ordered (st : ConvState) (c : Nat) (cs : List Nat)
    (hord : st.ordered_list = true) (hlvl : st.list_level = 1)
    (hcnt : st.list_counters = c :: cs) (a : List (String × String)) (b : Bool) :
    handle_starttag st "li" a b =
      some { st with
        list_counters := (c + 1) :: cs,
        doc := st.doc ++ [Block.para ⟨some "List Number",
          [mkRun (toString (c + 1) ++ ". ")], false⟩],
        current_paragraph := some st.doc.length,
        current_run := none } := by
  simp [handle_starttag, headingLevelOf, hord, hlvl, hcnt, pyGet_zero, pySet_zero, addPara]

theorem modifyParaAt_comp (st : ConvState) (i : Nat) (f g : Para → Para) :
    modifyParaAt (modifyParaAt st i f) i g = modifyParaAt st i (fun p => g (f p)) := by
  unfold modifyParaAt
  simp only [listModify_comp]
  have hfun : (fun a => blockMapPara g (blockMapPara f a)) = blockMapPara (fun p => g (f p)) := by
    funext b
    cases b <;> rfl
  rw [hfun]

theorem start_br_step (st : ConvState) (pi : Nat) (hpi : st.current_paragraph = some pi)
    (a : List (String × String)) (b : Bool) :
    handle_starttag st "br" a b =
      some (modifyParaAt st pi (fun p => { p with runs := p.runs ++ [mkRun "\n"] })) := by
  simp [handle_starttag, headingLevelOf, hpi]

/-- C1 (amended): outside a table cell, `handle_data` starts a new fully
styled run when no run is active or when the current formatting state
differs from the state recorded on the active run in the six tracked
components {bold, italic, strikethrough, superscript, subscript,
highlight} — the `code` flag, contrary to the original claim, does not
participate in the comparison — and reuses the active run, appending the
text verbatim with its style untouched, exactly when those six components
are unchanged. -/
theorem claim1_theorem (st : ConvState) (data : String) (pi : Nat) (P : Para)
    (hdata : pyStrip data ≠ "") (htab : st.in_table = false)
    (hpi : st.current_paragraph = some pi) (hP : getPara st pi = some P) :
    (st.current_run = none →
      handle_data st data =
        { modifyParaAt st pi (fun p => { p with runs := p.runs ++ [styledRun st data] }) with
            current_run := some P.runs.length })
    ∧ (∀ ri r, st.current_run = some ri → P.runs.get? ri = some r →
        (curFmt st = r.fmt →
          handle_data st data =
            modifyParaAt st pi (fun p =>
              { p with runs :=
                  listModify p.runs ri (fun r0 => { r0 with text := r0.text ++ data }) }))
        ∧ (curFmt st ≠ r.fmt →
          handle_data st data =
            { modifyParaAt st pi
                (fun p => { p with runs := p.runs ++ [styledRun st data] }) with
                current_run := some P.runs.length })) :=
  ⟨fun hr => data_new_run st data pi P hdata htab hpi hP hr,
   fun ri r hri hrr =>
     ⟨fun heq => data_extend_run st data pi ri P r hdata htab hpi hP hri hrr heq,
      fun hne => data_changed_run st data pi ri P r hdata htab hpi hP hri hrr hne⟩⟩

/-- A one-paragraph, one-run state used to instantiate theorems. -/
def witnessSt : ConvState :=
  { initState with
      doc := [Block.para ⟨none, [mkRun "a"], false⟩]
      current_paragraph := some 0
      current_run := some 0 }

/-- C1 witness: in a state whose active run carries the all-false snapshot
and whose flags are unchanged, text is appended to the active run. -/
theorem claim1_witness :
    handle_data witnessSt "b" =
      modifyParaAt witnessSt 0 (fun p =>
        { p with runs := listModify p.runs 0 (fun r0 => { r0 with text := r0.text ++ "b" }) }) :=
  ((claim1_theorem witnessSt "b" 0 ⟨none, [mkRun "a"], false⟩
      (by decide) rfl rfl rfl).2 0 (mkRun "a") rfl rfl).1 rfl

/-! ### Claim C9: line break does not become the active run -/

/-- C9: a `br` event inside an active paragraph appends a newline run
without making it the active run, so a following text event with unchanged
formatting flags extends the run created before the break — in the built
paragraph the later text lands in the run preceding the newline run. -/
theorem claim9_theorem (st : ConvState) (d : String) (pi ri : Nat) (P : Para) (r : Run)
    (hd : pyStrip d ≠ "") (htab : st.in_table = false)
    (hpi : st.current_paragraph = some pi) (hP : getPara st pi = some P)
    (hri : st.current_run = some ri) (hrr : P.runs.get? ri = some r)
    (hfmt : curFmt st = r.fmt) :
    processAll st [Event.start "br" [] false, Event.text d] =
      some (modifyParaAt st pi (fun p =>
        { p with runs := (listModify (p.runs ++ [mkRun "\n"]) ri
              (fun r0 => { r0 with text := r0.text ++ d })) })) := by
  have h1 := start_br_step st pi hpi [] false
  have hP1 : getPara (modifyParaAt st pi (fun p => { p with runs := p.runs ++ [mkRun "\n"] }))
      pi = some { P with runs := P.runs ++ [mkRun "\n"] } := by
    rw [getPara_modify_self, hP]
    rfl
  have hlt : ri < P.runs.length := (List.get?_eq_some.mp hrr).1
  have hrr1 : ({ P with runs := P.runs ++ [mkRun "\n"] } : Para).runs.get? ri = some r := by
    show (P.runs ++ [mkRun "\n"]).get? ri = some r
    rw [List.get?_append hlt]
    exact hrr
  have h2 := data_extend_run
    (modifyParaAt st pi (fun p => { p with runs := p.runs ++ [mkRun "\n"] })) d pi ri
    { P with runs := P.runs ++ [mkRun "\n"] } r hd htab hpi hP1 hri hrr1 hfmt
  simp only [processAll, List.foldlM_cons, List.foldlM_nil, step]
  rw [h1]
  simp only [Option.bind_eq_bind, Option.some_bind]
  rw [h2, modifyParaAt_comp]
  rfl

/-- C9 witness: concrete break between two identically formatted texts. -/
theorem claim9_witness :
    processAll witnessSt [Event.start "br" [] false, Event.text "b"] =
      some (modifyParaAt witnessSt 0 (fun p =>
        { p with runs := (listModify (p.runs ++ [mkRun "\n"]) 0
              (fun r0 => { r0 with text := r0.text ++ "b" })) })) :=
  claim9_theorem witnessSt "b" 0 0 ⟨none, [mkRun "a"], false⟩ (mkRun "a")
    (by decide) rfl rfl rfl rfl rfl rfl

theorem modifyParaAt_cp (st : ConvState) (i : Nat) (f : Para → Para) :
    (modifyParaAt st i f).current_paragraph = st.current_paragraph := rfl

theorem getPara_doc_concat (st : ConvState) (d : List Block) (p : Para) (i : Nat)
    (hst : st.doc = d ++ [Block.para p]) (hi : i = d.length) :
    getPara st i = some p := by
  unfold getPara
  rw [hst, hi, List.get?_concat_length]

/-! ### Claim C5: image failure fallback -/

/-- C5: for an image event with a nonempty source whose load fails, the
handler returns normally and an italicized bracketed text run is appended
to the active paragraph (creating one if none is active); its text wraps
the alt attribute value when the attribute is present and the placeholder
`[Image: <src>]` otherwise, so the run contains the alt text, resp. the
bracketed placeholder. -/
theorem claim5_theorem (st : ConvState) (attrs : List (String × String)) (src : String)
    (hsrc : attrsGet attrs "src" = some src) (hne : src ≠ "")
    (hvalid : ∀ pi, st.current_paragraph = some pi → ∃ p, getPara st pi = some p) :
    ∃ st' pi p,
      handle_starttag st "img" attrs true = some st' ∧
      st'.current_paragraph = some pi ∧
      getPara st' pi = some p ∧
      p.runs.getLast? = some (fallbackRunOf attrs src) ∧
      (fallbackRunOf attrs src).italic = true ∧
      (fallbackRunOf attrs src).text =
        (match attrsGet attrs "alt" with
         | some a => "[" ++ a ++ "]"
         | none => "[" ++ ("[Image: " ++ src ++ "]") ++ "]") := by
  have hstep : handle_starttag st "img" attrs true = some (handle_image st attrs true) := rfl
  have htext : (fallbackRunOf attrs src).text =
      (match attrsGet attrs "alt" with
       | some a => "[" ++ a ++ "]"
       | none => "[" ++ ("[Image: " ++ src ++ "]") ++ "]") := by
    cases hal : attrsGet attrs "alt" <;> simp [fallbackRunOf, hal, mkRun]
  cases hcp : st.current_paragraph with
  | none =>
    have himg : handle_image st attrs true =
        modifyParaAt
          { modifyParaAt { st with doc := st.doc ++ [Block.para ⟨none, [], false⟩] }
              st.doc.length (fun p => { p with centered := true }) with
            doc := (modifyParaAt { st with doc := st.doc ++ [Block.para ⟨none, [], false⟩] }
              st.doc.length (fun p => { p with centered := true })).doc ++
                [Block.para ⟨none, [], false⟩],
            current_paragraph := some (st.doc.length + 1) }
          (st.doc.length + 1)
          (fun p => { p with runs := p.runs ++ [fallbackRunOf attrs src] }) := by
      simp [handle_image, hsrc, hne, hcp, addPara, modifyParaAt, listModify_length]
    refine ⟨handle_image st attrs true, st.doc.length + 1,
      ⟨none, [fallbackRunOf attrs src], false⟩, hstep, ?_, ?_, rfl, rfl, htext⟩
    · rw [himg]; rfl
    · rw [himg, getPara_modify_self]
      rw [getPara_doc_concat _
          (listModify (st.doc ++ [Block.para ⟨none, [], false⟩]) st.doc.length
            (blockMapPara (fun p => { p with centered := true })))
          ⟨none, [], false⟩ _ rfl
          (by rw [listModify_length, List.length_append]; rfl)]
      rfl
  | some pi0 =>
    obtain ⟨p0, hp0⟩ := hvalid pi0 hcp
    have hlt := getPara_lt st pi0 p0 hp0
    by_cases hptxt : paraTextAt st pi0 = ""
    · have himg : handle_image st attrs true =
          modifyParaAt (modifyParaAt st pi0 (fun p => { p with centered := true })) pi0
            (fun p => { p with runs := p.runs ++ [fallbackRunOf attrs src] }) := by
        simp [handle_image, hsrc, hne, hcp, hptxt, modifyParaAt_cp]
      refine ⟨_, pi0, { p0 with centered := true, runs := p0.runs ++ [fallbackRunOf attrs src] },
        hstep, ?_, ?_, ?_, rfl, htext⟩
      · rw [himg]; exact hcp
      · rw [himg, getPara_modify_self, getPara_modify_self, hp0]
        rfl
      · exact List.getLast?_concat _
    · have himg : handle_image st attrs true =
          modifyParaAt (modifyParaAt { st with doc := st.doc ++ [Block.para ⟨none, [], false⟩] }
            st.doc.length (fun p => { p with centered := true })) pi0
            (fun p => { p with runs := p.runs ++ [fallbackRunOf attrs src] }) := by
        simp [handle_image, hsrc, hne, hcp, hptxt, modifyParaAt_cp, addPara]
      refine ⟨_, pi0, { p0 with runs := p0.runs ++ [fallbackRunOf attrs src] },
        hstep, ?_, ?_, ?_, rfl, htext⟩
      · rw [himg]; exact hcp
      · rw [himg, getPara_modify_self, getPara_modify_ne _ _ _ _ (Nat.ne_of_lt hlt),
          getPara_append st _ pi0 p0 hp0]
        rfl
      · exact List.getLast?_concat _

/-- C5 witness: failing image with alt text, from the initial state. -/
theorem claim5_witness :
    ∃ st' pi p,
      handle_starttag initState "img" [("src", "x.png"), ("alt", "cat")] true = some st' ∧
      st'.current_paragraph = some pi ∧
      getPara st' pi = some p ∧
      p.runs.getLast? = some (fallbackRunOf [("src", "x.png"), ("alt", "cat")] "x.png") ∧
      (fallbackRunOf [("src", "x.png"), ("alt", "cat")] "x.png").italic = true ∧
      (fallbackRunOf [("src", "x.png"), ("alt", "cat")] "x.png").text =
        (match attrsGet [("src", "x.png"), ("alt", "cat")] "alt" with
         | some a => "[" ++ a ++ "]"
         | none => "[" ++ ("[Image: " ++ "x.png" ++ "]") ++ "]") :=
  claim5_theorem initState [("src", "x.png"), ("alt", "cat")] "x.png" (by decide) (by decide)
    (fun pi h => nomatch h)

/-- C8 (amended): at anchor start the `href` attribute is captured as the
pending link; at anchor end the ` (URL)` annotation run (blue, 9pt) is
appended to the active paragraph if and only if a nonempty link is pending
and an active paragraph and an active run exist at end-tag time — the
active run need not have been produced inside the anchor — and after the
end tag no nonempty pending link remains, whether or not the annotation
was emitted. -/
theorem claim8_theorem :
    (∀ (st : ConvState) (attrs : List (String × String)) (b : Bool),
        handle_starttag st "a" attrs b =
          some { st with link_url := some ((attrsGet attrs "href").getD "") })
    ∧ (∀ (st : ConvState) (u : String) (pi : Nat), st.link_url = some u → u ≠ "" →
        st.current_paragraph = some pi → st.current_run.isSome = true →
        handle_endtag st "a" =
          some { modifyParaAt st pi (fun p => { p with runs := p.runs ++ [linkRun u] }) with
              link_url := some "", current_run := none })
    ∧ (∀ st : ConvState,
        st.link_url.getD "" = "" ∨ st.current_paragraph = none ∨ st.current_run = none →
        handle_endtag st "a" =
          some { st with
            link_url := if st.link_url.getD "" = "" then st.link_url else some "",
            current_run := none }) := by
  refine ⟨fun st attrs b => rfl, fun st u pi hlink hu hpi hrun => ?_, fun st h => ?_⟩
  · obtain ⟨ri, hri⟩ := Option.isSome_iff_exists.mp hrun
    simp [handle_endtag, headingLevelOf, hlink, hu, hpi, hri]
  · cases hlink : st.link_url with
    | none => simp [handle_endtag, headingLevelOf, hlink]
    | some u =>
      by_cases hu : u = ""
      · subst hu
        simp [handle_endtag, headingLevelOf, hlink]
      · rcases h with h | h | h
        · rw [hlink] at h
          simp [Option.getD] at h
          exact absurd h hu
        · simp [handle_endtag, headingLevelOf, hlink, hu, h]
        · cases hcp : st.current_paragraph with
          | none => simp [handle_endtag, headingLevelOf, hlink, hu, hcp]
          | some pi => simp [handle_endtag, headingLevelOf, hlink, hu, hcp, h]

/-- C8 witness: annotation emitted in a state with pending link, active
paragraph and active run; no annotation from the initial state. -/
theorem claim8_witness :
    handle_endtag { witnessSt with link_url := some "u" } "a" =
      some { modifyParaAt { witnessSt with link_url := some "u" } 0
          (fun p => { p with runs := p.runs ++ [linkRun "u"] }) with
          link_url := some "", current_run := none } ∧
    handle_endtag initState "a" =
      some { initState with
        link_url := if initState.link_url.getD "" = "" then initState.link_url else some "",
        current_run := none } :=
  ⟨claim8_theorem.2.1 { witnessSt with link_url := some "u" } "u" 0 rfl (by decide) rfl rfl,
   claim8_theorem.2.2 initState (Or.inl rfl)⟩

/-! ### Claim C4: table assembly -/

theorem buildRow_length (hdr : Bool) (cols : Nat) (row : List String) :
    (buildRow hdr cols row).length = cols := by
  simp [buildRow]

theorem buildRow_get (hdr : Bool) (cols : Nat) (row : List String) (j : Nat)
    (cell : List Run) (h : (buildRow hdr cols row).get? j = some cell) :
    cell = (match row.get? j with
      | some s => [{ mkRun (pyStrip s) with bold := hdr }]
      | none => []) := by
  unfold buildRow at h
  have hj : j < cols := by
    have := (List.get?_eq_some.mp h).1
    simpa using this
  rw [List.get?_map, List.get?_range hj] at h
  simp only [Option.map_some', Option.some.injEq] at h
  exact h.symm

/-- C4: a buffered table with at least one row and positive width is
emitted as one grid block whose row count equals the buffered row count
and whose every row has width `maxCols td` — the cell count of the longest
row, an upper bound attained by some row; cell (i, j) holds the
whitespace-stripped source text as a single run that is bold exactly in
the first row when row i has a j-th cell, and is a fresh empty cell
otherwise; `create_table` is total, so no error is raised; a row that
collected zero cells is skipped at row end; a table with zero rows or zero
columns emits nothing. -/
theorem claim4_theorem :
    (∀ (st : ConvState) (td : List (List String)), td ≠ [] → maxCols td ≠ 0 →
        create_table st td =
          { st with doc := st.doc ++ [Block.table (buildGrid td (maxCols td))],
                    table_data := some [] })
    ∧ (∀ (st : ConvState) (td : List (List String)), td = [] ∨ maxCols td = 0 →
        create_table st td = st)
    ∧ (∀ (td : List (List String)) (cols : Nat),
        (buildGrid td cols).length = td.length)
    ∧ (∀ (td : List (List String)) (cols gi : Nat) (grow : List (List Run)),
        (buildGrid td cols).get? gi = some grow →
          grow.length = cols ∧
          ∀ j cell, grow.get? j = some cell →
            cell = (match (td.get? gi).bind (fun row => row.get? j) with
              | some s => [{ mkRun (pyStrip s) with bold := gi == 0 }]
              | none => []))
    ∧ (∀ (td : List (List String)) (row : List String), row ∈ td → row.length ≤ maxCols td)
    ∧ (∀ td : List (List String), td ≠ [] → ∃ row ∈ td, row.length = maxCols td)
    ∧ (∀ st : ConvState, st.current_table_row = some [] → handle_endtag st "tr" = some st) := by
  refine ⟨fun st td h1 h2 => ?_, fun st td h => ?_, fun td cols => ?_,
    fun td cols gi grow h => ?_, fun td row h => ?_, fun td h => ?_, fun st h => ?_⟩
  · simp [create_table, h1, h2, List.length_eq_zero]
  · rcases h with h | h
    · simp [create_table, h]
    · by_cases h0 : td = []
      · simp [create_table, h0]
      · simp [create_table, h0, h]
  · cases td <;> simp [buildGrid]
  · cases td with
    | nil => simp [buildGrid] at h
    | cons row rest =>
      cases gi with
      | zero =>
        simp only [buildGrid, List.get?_cons_zero, Option.some.injEq] at h
        subst h
        exact ⟨buildRow_length _ _ _, fun j cell hc => buildRow_get true cols row j cell hc⟩
      | succ k =>
        simp only [buildGrid, List.get?_cons_succ, List.get?_map] at h
        obtain ⟨r0, hr0, hgrow⟩ := Option.map_eq_some'.mp h
        subst hgrow
        refine ⟨buildRow_length _ _ _, fun j cell hc => ?_⟩
        have hsc : (((row :: rest : List (List String)).get? (k + 1)).bind
            (fun r => r.get? j)) = r0.get? j := by
          rw [List.get?_cons_succ, hr0]
          rfl
        rw [hsc]
        exact buildRow_get false cols r0 j cell hc
  · exact mem_le_foldl_max _ _ _ (List.mem_map_of_mem List.length h)
  · rcases foldl_max_cases (td.map List.length) 0 with h0 | ⟨a, ha, heq⟩
    · cases td with
      | nil => exact absurd rfl h
      | cons r rest =>
        refine ⟨r, List.mem_cons_self r rest, ?_⟩
        have hle : r.length ≤ maxCols (r :: rest) :=
          mem_le_foldl_max _ _ _ (List.mem_map_of_mem List.length (List.mem_cons_self r rest))
        have h0' : maxCols (r :: rest) = 0 := h0
        omega
    · obtain ⟨row, hrow, hlen⟩ := List.mem_map.mp ha
      refine ⟨row, hrow, ?_⟩
      rw [hlen]
      exact heq.symm
  · have heta : { st with current_table_row := some ([] : List String) } = st := by
      rw [← h]
    simp [handle_endtag, headingLevelOf, h, heta]

/-- C4 witness: the hypothesis-bearing parts instantiated on a concrete
ragged table. -/
theorem claim4_witness :
    create_table initState [["a ", "b"], ["c"]] =
      { initState with
          doc := initState.doc ++
            [Block.table (buildGrid [["a ", "b"], ["c"]] (maxCols [["a ", "b"], ["c"]]))],
          table_data := some [] } ∧
    create_table initState [] = initState ∧
    (buildRow false 2 ["c"]).length = 2 ∧
    (["a ", "b"] : List String).length ≤ maxCols [["a ", "b"], ["c"]] ∧
    (∃ row ∈ [["a ", "b"], ["c"]], (row : List String).length = maxCols [["a ", "b"], ["c"]]) ∧
    handle_endtag { initState with current_table_row := some [] } "tr" =
      some { initState with current_table_row := some [] } :=
  ⟨claim4_theorem.1 initState [["a ", "b"], ["c"]] (by decide) (by decide),
   claim4_theorem.2.1 initState [] (Or.inl rfl),
   (claim4_theorem.2.2.2.1 [["a ", "b"], ["c"]] 2 1 (buildRow false 2 ["c"]) rfl).1,
   claim4_theorem.2.2.2.2.1 [["a ", "b"], ["c"]] ["a ", "b"] (by decide),
   claim4_theorem.2.2.2.2.2.1 [["a ", "b"], ["c"]] (by decide),
   claim4_theorem.2.2.2.2.2.2 { initState with current_table_row := some [] } rfl⟩

/-- The converter state in the middle of a flat top-level ordered list:
`doc` built so far, depth 1, counter `c` at slot 0, all else initial. -/
def olState (doc : List Block) (c : Nat) : ConvState :=
  { initState with
      doc := doc
      ordered_list := true
      list_level := 1
      list_counters := c :: List.replicate 9 0 }

/-- Processing one `li`-text-`/li` item inside a flat ordered list appends
one `List Number` paragraph `⟨k. , text⟩` and bumps the counter. -/
theorem olState_item (doc : List Block) (c : Nat) (t : String) (ht : pyStrip t ≠ "")
    (rest : List Event) :
    processAll (olState doc c) (Event.start "li" [] false :: Event.text t ::
        Event.endT "li" :: rest) =
      processAll (olState (doc ++ [Block.para ⟨some "List Number",
        [mkRun (toString (c + 1) ++ ". "), mkRun t], false⟩]) (c + 1)) rest := by
  simp only [processAll, List.foldlM_cons, step]
  rw [start_li_ordered (olState doc c) c (List.replicate 9 0) rfl rfl rfl [] false]
  simp only [Option.bind_eq_bind, Option.some_bind]
  rw [data_new_run _ t (olState doc c).doc.length
    ⟨some "List Number", [mkRun (toString (c + 1) ++ ". ")], false⟩ ht rfl rfl
    (getPara_doc_concat _ (olState doc c).doc _ _ rfl rfl) rfl]
  rw [end_li_step]
  simp only [Option.bind_eq_bind, Option.some_bind]
  apply congrArg (fun s => List.foldlM step s rest)
  simp [olState, initState, modifyParaAt, listModify_concat, blockMapPara, styledRun, curFmt,
    mkRun, noFmt]

/-- The event sequence of flat list items: start, text, end for each. -/
def liEvents : List String → List Event
  | [] => []
  | t :: ts => Event.start "li" [] false :: Event.text t :: Event.endT "li" :: liEvents ts

/-- A flat top-level ordered list holding one item per string. -/
def olEvents (ts : List String) : List Event :=
  Event.start "ol" [] false :: (liEvents ts ++ [Event.endT "ol"])

/-- The paragraphs the items of an ordered list produce, numbering from
`c + 1`: each is a `List Number` paragraph whose first run is the numeric
item label `k. ` and whose second run is the item text. -/
def numberedParas (c : Nat) : List String → List Block
  | [] => []
  | t :: ts =>
    Block.para ⟨some "List Number", [mkRun (toString (c + 1) ++ ". "), mkRun t], false⟩ ::
      numberedParas (c + 1) ts

theorem olState_items (ts : List String) (doc : List Block) (c : Nat)
    (hts : ∀ t ∈ ts, pyStrip t ≠ "") (rest : List Event) :
    processAll (olState doc c) (liEvents ts ++ rest) =
      processAll (olState (doc ++ numberedParas c ts) (c + ts.length)) rest := by
  induction ts generalizing doc c with
  | nil => simp [liEvents, numberedParas]
  | cons t ts ih =>
    have hstep := olState_item doc c t (hts t (List.mem_cons_self t ts)) (liEvents ts ++ rest)
    simp only [liEvents, List.cons_append] at hstep ⊢
    rw [hstep, ih _ _ (fun u hu => hts u (List.mem_cons_of_mem t hu))]
    have hdoc : (doc ++ [Block.para ⟨some "List Number",
        [mkRun (toString (c + 1) ++ ". "), mkRun t], false⟩]) ++ numberedParas (c + 1) ts =
        doc ++ numberedParas c (t :: ts) := by
      rw [List.append_assoc]
      rfl
    have hcnt : c + 1 + ts.length = c + (t :: ts).length := by
      simp
      omega
    rw [hdoc, hcnt]

/-- The converter state outside any list: depth 0, counters all zero. -/
def groundState (doc : List Block) (ord : Bool) : ConvState :=
  { initState with
      doc := doc
      ordered_list := ord }

theorem olBlock (ts : List String) (doc : List Block) (ord : Bool)
    (hts : ∀ t ∈ ts, pyStrip t ≠ "") (rest : List Event) :
    processAll (groundState doc ord) (olEvents ts ++ rest) =
      processAll (groundState (doc ++ numberedParas 0 ts) true) rest := by
  simp only [olEvents, List.cons_append, processAll, List.foldlM_cons, step]
  rw [start_ol_level0 (groundState doc ord) 0 (List.replicate 9 0) rfl rfl [] false]
  simp only [Option.bind_eq_bind, Option.some_bind]
  have hmid := olState_items ts doc 0 hts (Event.endT "ol" :: rest)
  simp only [processAll] at hmid
  rw [List.append_assoc, List.singleton_append]
  rw [show ({ groundState doc ord with ordered_list := true, list_level := 1, list_counters := 0 :: List.replicate 9 0 } : ConvState) = olState doc 0 from rfl]
  rw [hmid]
  simp only [List.foldlM_cons, step]
  rw [end_ol_level1 (olState (doc ++ numberedParas 0 ts) (0 + ts.length)) (0 + ts.length)
    (List.replicate 9 0) rfl rfl]
  simp only [Option.bind_eq_bind, Option.some_bind]
  apply congrArg (fun s => List.foldlM step s rest)
  simp [olState, groundState, initState]

/-- C2 (amended): for a flat ordered list whose items carry nonempty text
and contain no sublist markup, item k is rendered as a `List Number`
paragraph whose first run is the prefix `k. `, and closing then reopening
an ordered list at the same depth restarts the numbering at 1 (the
counter of that depth is reset at each ordered-list open and close, and no
other slot is touched).  An unordered sublist between the items breaks
this, because the ordered/unordered mode is one flag set by the most
recent list start tag, so items after a closed `ul` sublist render as
bullets — the behaviour the counterexample exhibits. -/
theorem claim2_theorem (ts1 ts2 : List String)
    (h1 : ∀ t ∈ ts1, pyStrip t ≠ "") (h2 : ∀ t ∈ ts2, pyStrip t ≠ "") :
    processAll initState (olEvents ts1 ++ olEvents ts2) =
      some { initState with
        doc := numberedParas 0 ts1 ++ numberedParas 0 ts2
        ordered_list := true } := by
  rw [show initState = groundState [] false from rfl,
    olBlock ts1 [] false h1 (olEvents ts2),
    show olEvents ts2 = olEvents ts2 ++ [] from by simp,
    olBlock ts2 _ true h2 []]
  simp [processAll, groundState, initState]

/-- C2 witness: two consecutive concrete ordered lists restart at 1. -/
theorem claim2_witness :
    processAll initState (olEvents ["one", "two"] ++ olEvents ["three"]) =
      some { initState with
        doc := numberedParas 0 ["one", "two"] ++ numberedParas 0 ["three"]
        ordered_list := true } :=
  claim2_theorem ["one", "two"] ["three"] (by decide) (by decide)

/-! ### Claim C3 (amended): guarded handler totality -/

/-- The per-event precondition under which no handler raises: counter
array accesses stay within Python index range (including the negative
wrap), and table end tags find their buffers already initialized. -/
def eventOk (st : ConvState) : Event → Bool
  | Event.start t _ _ =>
    if t = "ol" then decide (-10 ≤ st.list_level ∧ st.list_level ≤ 9)
    else if t = "li" then
      !st.ordered_list || decide (-9 ≤ st.list_level ∧ st.list_level ≤ 10)
    else true
  | Event.endT t =>
    if t = "ol" then decide (-9 ≤ st.list_level ∧ st.list_level ≤ 10)
    else if t = "th" || t = "td" then
      st.current_table_row.isSome && st.current_cell_text.isSome
    else if t = "tr" then
      (match st.current_table_row with
       | none => false
       | some row => row.isEmpty || st.table_data.isSome)
    else if t = "table" then st.table_data.isSome
    else true
  | Event.text _ => true

/-- The start tags the converter has a branch for. -/
def startTagsHandled : List String :=
  ["h1", "h2", "h3", "h4", "h5", "h6", "p", "strong", "b", "em", "i", "code", "pre",
   "ul", "ol", "li", "a", "img", "table", "tr", "th", "td", "br", "blockquote", "hr",
   "del", "s", "sup", "sub", "mark", "div"]

/-- The end tags the converter has a branch for. -/
def endTagsHandled : List String :=
  ["h1", "h2", "h3", "h4", "h5", "h6", "p", "strong", "b", "em", "i", "code", "pre",
   "ul", "ol", "li", "a", "th", "td", "tr", "table", "blockquote", "del", "s",
   "sup", "sub", "mark"]

theorem starttag_total (st : ConvState) (tag : String) (attrs : List (String × String))
    (b : Bool) (hlen : st.list_counters.length = 10)
    (hok : eventOk st (Event.start tag attrs b) = true) :
    (handle_starttag st tag attrs b).isSome = true := by
  rw [handle_starttag.eq_def]
  split <;> try rfl
  · -- ol
    simp only [eventOk, if_pos, decide_eq_true_eq] at hok
    obtain ⟨cs, hcs⟩ := pySet_isSome st.list_counters (st.list_level + 1 - 1) 0
      (by rw [hlen]; omega) (by rw [hlen]; omega)
    simp only [hcs, Option.isSome_some]
  · -- li
    by_cases hord : st.ordered_list = true
    · have hok' : -9 ≤ st.list_level ∧ st.list_level ≤ 10 := by
        simpa [eventOk, hord] using hok
      obtain ⟨c, hgc⟩ := pyGet_isSome st.list_counters (st.list_level - 1)
        (by rw [hlen]; omega) (by rw [hlen]; omega)
      obtain ⟨cs, hcs⟩ := pySet_isSome st.list_counters (st.list_level - 1) (c + 1)
        (by rw [hlen]; omega) (by rw [hlen]; omega)
      simp only [hord, if_pos, hgc, hcs, Option.isSome_some]
    · simp only [Bool.not_eq_true] at hord
      simp [hord]
  · -- br
    cases st.current_paragraph <;> simp
  · -- div
    by_cases hcl : attrsGet attrs "class" = some "pagebreak" <;> simp [hcl]

theorem starttag_unknown (st : ConvState) (tag : String) (attrs : List (String × String))
    (b : Bool) (h : tag ∉ startTagsHandled) :
    handle_starttag st tag attrs b = some st := by
  rw [handle_starttag.eq_def]
  split <;> first | rfl | exact absurd (by decide) h

theorem endtag_total (st : ConvState) (tag : String) (hlen : st.list_counters.length = 10)
    (hok : eventOk st (Event.endT tag) = true) :
    (handle_endtag st tag).isSome = true := by
  rw [handle_endtag.eq_def]
  split <;> try rfl
  · -- ol
    simp only [eventOk, if_pos, decide_eq_true_eq] at hok
    obtain ⟨cs, hcs⟩ := pySet_isSome st.list_counters (st.list_level - 1) 0
      (by rw [hlen]; omega) (by rw [hlen]; omega)
    simp only [hcs, Option.isSome_some]
  · -- th/td
    have hok' : st.current_table_row.isSome = true ∧ st.current_cell_text.isSome = true := by
      simpa [eventOk] using hok
    obtain ⟨row, hrow⟩ := Option.isSome_iff_exists.mp hok'.1
    obtain ⟨cell, hcell⟩ := Option.isSome_iff_exists.mp hok'.2
    simp [hrow, hcell]
  · -- td
    have hok' : st.current_table_row.isSome = true ∧ st.current_cell_text.isSome = true := by
      simpa [eventOk] using hok
    obtain ⟨row, hrow⟩ := Option.isSome_iff_exists.mp hok'.1
    obtain ⟨cell, hcell⟩ := Option.isSome_iff_exists.mp hok'.2
    simp [hrow, hcell]
  · -- tr
    cases hrow : st.current_table_row with
    | none => simp [eventOk, hrow] at hok
    | some row =>
      by_cases hre : row = []
      · simp [hrow, hre]
      · have htd' : st.table_data.isSome = true := by
          simp [eventOk, hrow, hre] at hok
          exact hok
        obtain ⟨td, htd⟩ := Option.isSome_iff_exists.mp htd'
        simp [hrow, hre, htd]
  · -- table
    have : st.table_data.isSome = true := by simpa [eventOk] using hok
    obtain ⟨td, htd⟩ := Option.isSome_iff_exists.mp this
    simp [htd]

theorem endtag_unknown (st : ConvState) (tag : String) (h : tag ∉ endTagsHandled) :
    handle_endtag st tag = some st := by
  rw [handle_endtag.eq_def]
  split <;> first | rfl | exact absurd (by decide) h

/-- C3 (amended): handlers never raise provided the ten-slot counter array
is indexed within Python range (ordered-list events with the signed depth
inside the wrap range) and every table-cell/row/table end tag comes after
the corresponding buffer attribute was initialized by a start tag — the
counterexample shows both provisos are necessary; unknown start and end
tags are silently ignored, leaving the state unchanged, so processing
continues. -/
theorem claim3_theorem :
    (∀ (st : ConvState) (e : Event), st.list_counters.length = 10 →
        eventOk st e = true → (step st e).isSome = true)
    ∧ (∀ (st : ConvState) (tag : String) (attrs : List (String × String)) (b : Bool),
        tag ∉ startTagsHandled → handle_starttag st tag attrs b = some st)
    ∧ (∀ (st : ConvState) (tag : String), tag ∉ endTagsHandled →
        handle_endtag st tag = some st) := by
  refine ⟨fun st e hlen hok => ?_, starttag_unknown, endtag_unknown⟩
  cases e with
  | start tag attrs b => exact starttag_total st tag attrs b hlen hok
  | endT tag => exact endtag_total st tag hlen hok
  | text d => simp [step]

/-- C3 witness: a well-formed event and an unknown tag from the initial
state. -/
theorem claim3_witness :
    (step initState (Event.endT "p")).isSome = true ∧
    handle_starttag initState "video" [] false = some initState ∧
    handle_endtag initState "video" = some initState :=
  ⟨claim3_theorem.1 initState (Event.endT "p") rfl rfl,
   claim3_theorem.2.1 initState "video" [] false (by decide),
   claim3_theorem.2.2 initState "video" (by decide)⟩

/-! ### Claim C7: no adjacent runs with identical formatting state -/

/-- Events consisting only of paragraph tags and text. -/
def isPTextEvent : Event → Bool
  | Event.start t _ _ => t = "p"
  | Event.endT t => t = "p"
  | Event.text _ => true

/-- Invariant maintained while processing paragraph-and-text-only input:
all formatting flags clear, no code block or table context, every built
paragraph holds at most one run and every run carries the all-false
snapshot, and the insertion point is coherent (an empty active paragraph
when no run is active, exactly the one active run otherwise). -/
def pInv (st : ConvState) : Prop :=
  st.bold = false ∧ st.italic = false ∧ st.strikethrough = false ∧
  st.superscript = false ∧ st.subscript = false ∧ st.highlight = false ∧
  st.in_code_block = false ∧ st.in_table = false ∧
  (∀ i p, st.doc.get? i = some (Block.para p) →
      p.runs.length ≤ 1 ∧ ∀ r ∈ p.runs, r.fmt = noFmt) ∧
  (match st.current_paragraph, st.current_run with
   | some pi, none => ∃ p, getPara st pi = some p ∧ p.runs = []
   | some pi, some ri =>
       ri = 0 ∧ ∃ p r, getPara st pi = some p ∧ p.runs = [r] ∧ r.fmt = noFmt
   | none, none => True
   | none, some _ => False)

theorem modifyParaAt_cr (st : ConvState) (i : Nat) (f : Para → Para) :
    (modifyParaAt st i f).current_run = st.current_run := rfl

theorem getPara_some (st : ConvState) (i : Nat) (P : Para) (h : getPara st i = some P) :
    st.doc.get? i = some (Block.para P) := by
  unfold getPara at h
  cases hg : st.doc.get? i with
  | none => rw [hg] at h; cases h
  | some b =>
    cases b with
    | para p => rw [hg] at h; cases h; rfl
    | table t => rw [hg] at h; cases h

/-- Every paragraph-or-text event preserves the invariant and succeeds. -/
theorem pInv_step (st : ConvState) (e : Event) (hinv : pInv st)
    (he : isPTextEvent e = true) :
    ∃ st', step st e = some st' ∧ pInv st' := by
  obtain ⟨hb, hi, hstk, hsup, hsub, hhl, hcb, htab, hdoc, hptr⟩ := hinv
  have hfmt : curFmt st = noFmt := by
    simp [curFmt, noFmt, hb, hi, hstk, hsup, hsub, hhl]
  cases e with
  | start tag attrs b =>
    have htag : tag = "p" := by simpa [isPTextEvent] using he
    subst htag
    refine ⟨_, start_p_step st attrs b, hb, hi, hstk, hsup, hsub, hhl, hcb, htab, ?_, ?_⟩
    · intro i p hp
      rcases get?_concat_cases _ _ _ _ hp with hold | ⟨hie, hpe⟩
      · exact hdoc i p hold
      · cases hpe
        simp
    · exact ⟨⟨none, [], false⟩, getPara_addPara st _, rfl⟩
  | endT tag =>
    have htag : tag = "p" := by simpa [isPTextEvent] using he
    subst htag
    exact ⟨_, end_p_step st, hb, hi, hstk, hsup, hsub, hhl, hcb, htab, hdoc, trivial⟩
  | text d =>
    by_cases hws : pyStrip d = ""
    · exact ⟨st, congrArg some (data_whitespace st d hws hcb),
        hb, hi, hstk, hsup, hsub, hhl, hcb, htab, hdoc, hptr⟩
    · cases hcp : st.current_paragraph with
      | none =>
        have hcr : st.current_run = none := by
          cases hcr' : st.current_run with
          | none => rfl
          | some ri => rw [hcp, hcr'] at hptr; exact absurd hptr (by simp)
        have hd := data_fresh_para st d hws htab hcp hcr
        refine ⟨_, rfl, ?_⟩
        rw [hd]
        refine ⟨hb, hi, hstk, hsup, hsub, hhl, hcb, htab, ?_, ?_⟩
        · intro i p hp
          rcases get?_concat_cases _ _ _ _ hp with hold | ⟨hie, hpe⟩
          · exact hdoc i p hold
          · cases hpe
            constructor
            · simp
            · intro r hr
              simp at hr
              rw [hr]
              show curFmt st = noFmt
              exact hfmt
        · refine ⟨rfl, ⟨none, [styledRun st d], false⟩, styledRun st d,
            getPara_addPara st _, rfl, hfmt⟩
      | some pi =>
        rw [hcp] at hptr
        cases hcr : st.current_run with
        | none =>
          rw [hcr] at hptr
          obtain ⟨P, hP, hPruns⟩ := hptr
          have hd := data_new_run st d pi P hws htab hcp hP hcr
          refine ⟨_, rfl, ?_⟩
          rw [hd]
          refine ⟨hb, hi, hstk, hsup, hsub, hhl, hcb, htab, ?_, ?_⟩
          · intro i p hp
            simp only [modifyParaAt] at hp
            by_cases hip : i = pi
            · subst hip
              rw [listModify_get_self, getPara_some st i P hP] at hp
              simp only [Option.map_some', blockMapPara, Option.some.injEq] at hp
              cases hp
              constructor
              · simp [hPruns]
              · intro r hr
                rw [hPruns] at hr
                simp at hr
                rw [hr]
                show curFmt st = noFmt
                exact hfmt
            · rw [listModify_get_ne _ _ _ _ hip] at hp
              exact hdoc i p hp
          · simp only [modifyParaAt_cp, hcp, hcr, hPruns]
            refine ⟨rfl, { P with runs := P.runs ++ [styledRun st d] }, styledRun st d,
              ?_, by rw [hPruns]; rfl, hfmt⟩
            show getPara (modifyParaAt st pi _) pi = _
            rw [getPara_modify_self, hP]
            rfl
        | some ri =>
          rw [hcr] at hptr
          obtain ⟨hri, P, r, hP, hPruns, hrfmt⟩ := hptr
          subst hri
          have hrr : P.runs.get? 0 = some r := by rw [hPruns]; rfl
          have hd := data_extend_run st d pi 0 P r hws htab hcp hP hcr hrr
            (by rw [hfmt, hrfmt])
          refine ⟨_, rfl, ?_⟩
          rw [hd]
          refine ⟨hb, hi, hstk, hsup, hsub, hhl, hcb, htab, ?_, ?_⟩
          · intro i p hp
            simp only [modifyParaAt] at hp
            by_cases hip : i = pi
            · subst hip
              rw [listModify_get_self, getPara_some st i P hP] at hp
              simp only [Option.map_some', blockMapPara, Option.some.injEq] at hp
              cases hp
              constructor
              · simp [hPruns, listModify]
              · intro r0 hr0
                rw [hPruns] at hr0
                simp [listModify] at hr0
                rw [hr0]
                exact hrfmt
            · rw [listModify_get_ne _ _ _ _ hip] at hp
              exact hdoc i p hp
          · simp only [modifyParaAt_cp, modifyParaAt_cr, hcp, hcr]
            refine ⟨by trivial, { P with runs := (listModify P.runs 0 (fun r0 => { r0 with text := r0.text ++ d })) },
              { r with text := r.text ++ d }, ?_, by rw [hPruns]; rfl, hrfmt⟩
            show getPara (modifyParaAt st pi _) pi = _
            rw [getPara_modify_self, hP]
            rfl

/-- C7: for every event sequence containing only paragraph tags and text
events, processing succeeds and the built document never contains two
adjacent runs within one paragraph (in particular none with identical
formatting state) — run merging is idempotent. -/
theorem claim7_theorem (evs : List Event) (h : ∀ e ∈ evs, isPTextEvent e = true) :
    ∃ st', processAll initState evs = some st' ∧
      ∀ i p, st'.doc.get? i = some (Block.para p) →
        ∀ j r1 r2, p.runs.get? j = some r1 → p.runs.get? (j + 1) = some r2 →
          r1.fmt ≠ r2.fmt := by
  have main : ∀ (l : List Event) (st : ConvState), pInv st →
      (∀ e ∈ l, isPTextEvent e = true) →
      ∃ st', processAll st l = some st' ∧ pInv st' := by
    intro l
    induction l with
    | nil => exact fun st hinv _ => ⟨st, rfl, hinv⟩
    | cons e l ih =>
      intro st hinv hall
      obtain ⟨st1, hs1, hinv1⟩ := pInv_step st e hinv (hall e (List.mem_cons_self e l))
      obtain ⟨st2, hs2, hinv2⟩ := ih st1 hinv1 (fun u hu => hall u (List.mem_cons_of_mem e hu))
      refine ⟨st2, ?_, hinv2⟩
      simp only [processAll, List.foldlM_cons]
      rw [show step st e = some st1 from hs1]
      simp only [Option.bind_eq_bind, Option.some_bind]
      exact hs2
  have hinv0 : pInv initState := by
    refine ⟨rfl, rfl, rfl, rfl, rfl, rfl, rfl, rfl, ?_, trivial⟩
    intro i p hp
    simp [initState] at hp
  obtain ⟨st', hs, hinv⟩ := main evs initState hinv0 h
  refine ⟨st', hs, fun i p hp j r1 r2 h1 h2 => ?_⟩
  obtain ⟨hlen, _⟩ := hinv.2.2.2.2.2.2.2.2.1 i p hp
  have hj1 : j + 1 < p.runs.length := (List.get?_eq_some.mp h2).1
  exact absurd hj1 (by omega)

/-- C7 witness: a concrete paragraph-and-text-only sequence. -/
theorem claim7_witness :
    ∃ st', processAll initState
        [Event.start "p" [] false, Event.text "hi", Event.text "there", Event.endT "p"] =
        some st' ∧
      ∀ i p, st'.doc.get? i = some (Block.para p) →
        ∀ j r1 r2, p.runs.get? j = some r1 → p.runs.get? (j + 1) = some r2 →
          r1.fmt ≠ r2.fmt :=
  claim7_theorem
    [Event.start "p" [] false, Event.text "hi", Event.text "there", Event.endT "p"]
    (by decide)
